import Mathlib

/-!
# metrics: ResettingTimer and Histogram

A shallow embedding of `metrics/resetting_timer.go` and of `metrics/histogram.go`,
followed by the properties proved about them. Of `histogram.go` the constructor, the Nil
variant and the methods of the Active and Snapshot variants that do not call into the
Sample are embedded; the remaining methods are one-line calls of the same method of the
Sample, whose implementations live in another file of the package.

Conventions of the embedding.

* `int64` is `Int`; an `int64` addition is followed by `wrap64`, the reduction to the
  signed 64-bit range. `time.Duration` is an `int64`, so `int64(d)` is `d`.
* a finite `float64` is the rational number it denotes, and every `float64` operation
  is the exact operation followed by `float64`, the rounding to the nearest binary64
  number, ties to even (IEEE 754, the default mode, each operation rounded on its own as
  on amd64). Percentiles are finite. `int` is 64 bits wide, and `int(x)` of a `float64`
  outside the `int64` range is `-2^63`, the amd64 result (Go leaves it to the
  implementation).
* a slice is a `List`; the nil slice and the empty slice are both `[]`.
* a method with a pointer receiver returns the receiver after the call next to its result
  (explicit state passing); a Go panic is the `panic` outcome, and the receiver returned
  with it is the state the panic left behind.
* the mutex of `StandardResettingTimer` is acquired and released inside each method; in the
  sequential embedding every call runs alone, so the lock carries no state.
* `log.DebugLog()` writes a log line and touches nothing of the metric; it is left out.
* `sort.Sort` is the standard library; it is embedded as an insertion sort driven by
  `Int64Slice.Less` (on integers the ascending arrangement is unique).
-/

namespace metrics

/-! ## Machine integers, panics -/

/-- Signed 64-bit wrap-around: the representative of `x` modulo `2^64` in
`[-2^63, 2^63)`. -/
def wrap64 (x : Int) : Int := (x + 2 ^ 63) % 2 ^ 64 - 2 ^ 63

/-- A Go panic: either an explicit `panic("...")` or the runtime error of an index
expression outside `0 ≤ index < len`. -/
inductive Panic where
  | msg (s : String)
  | indexOutOfRange (index : Int) (len : Nat)
  deriving DecidableEq, Repr

/-- Result of a call: a normal return with a value, or a panic. -/
inductive Outcome (α : Type) where
  | ret (a : α)
  | panic (p : Panic)
  deriving DecidableEq, Repr

/-- Normal return. -/
def Outcome.returns {α : Type} : Outcome α → Bool
  | .ret _ => true
  | .panic _ => false

/-! ## float64 -/

/-- Rounding of a rational to the nearest integer, to the even one on a tie. -/
def roundHalfEven (x : ℚ) : Int :=
  if x - ⌊x⌋ < 1 / 2 then ⌊x⌋
  else if 1 / 2 < x - ⌊x⌋ then ⌊x⌋ + 1
  else if ⌊x⌋ % 2 = 0 then ⌊x⌋ else ⌊x⌋ + 1

/-- The binary exponent that fixes the spacing of the float64 numbers around `x ≠ 0`: the
`e` with `2^e ≤ |x| < 2^(e+1)`, and `-1022` below the normal range (gradual underflow). -/
def binade (x : ℚ) : Int := max (Int.log 2 |x|) (-1022)

/-- The float64 nearest to `x`, ties to even: a significand of 53 bits, so a spacing of
`2^(e-52)` in the binade `e`. Overflow to an infinity is not represented; in this package
only the rank of `calc` can be that large, and the conversion to `int` that follows it
treats every value beyond the `int64` range alike. -/
def float64 (x : ℚ) : ℚ :=
  if x = 0 then 0
  else (roundHalfEven (x / 2 ^ (binade x - 52)) : ℚ) * 2 ^ (binade x - 52)

/-- The float64 sum `a + b`. -/
def f64add (a b : ℚ) : ℚ := float64 (a + b)

/-- The float64 product `a * b`. -/
def f64mul (a b : ℚ) : ℚ := float64 (a * b)

/-- The float64 quotient `a / b`, for `b ≠ 0`. -/
def f64div (a b : ℚ) : ℚ := float64 (a / b)

/-- The function `math.Floor`; its result is an integer, hence a float64 whenever its
argument is one. -/
def mathFloor (x : ℚ) : ℚ := (⌊x⌋ : Int)

/-- The conversion `int(x)` of a float64: the integer part of `x` when that is an `int64`,
and `-2^63` otherwise (amd64). -/
def intOfFloat64 (x : ℚ) : Int :=
  if -2 ^ 63 ≤ x ∧ x < 2 ^ 63 then (if 0 ≤ x then ⌊x⌋ else ⌈x⌉) else -2 ^ 63

/-! ## Closures and the clock -/

/-- A Go `func()` that does not touch the timer it is passed to: run in a world `W`, it
leaves a new world and either returns or panics. -/
abbrev Func (W : Type) := W → W × Option Panic

/-- The two functions of the standard `time` package that the timers call, read in a
world `W` with instants of type `T`: `time.Now()` and `int64(time.Since(ts))`. -/
structure TimePkg (W T : Type) where
  Now : W → T
  Since : W → T → Int

/-! ## Int64Slice and sort.Sort -/

/-- Int64Slice.Less, on the two elements compared: `s[i] < s[j]`. -/
def Int64Slice.Less (a b : Int) : Bool := decide (a < b)

/-- Insertion of `x` into an ascending list, after every element that is `Less` than it
or equal to it (that is, before the first `y` with `Less x y`). -/
def Int64Slice.insert (x : Int) : List Int → List Int
  | [] => [x]
  | y :: ys => if Int64Slice.Less x y then x :: y :: ys else y :: Int64Slice.insert x ys

/-- The effect of `sort.Sort(Int64Slice(s))`: `s` rearranged in increasing order. -/
def Int64Slice.sort : List Int → List Int
  | [] => []
  | x :: xs => Int64Slice.insert x (Int64Slice.sort xs)

/-! ## ResettingTimer -/

/-- The constant `InitialResettingTimerSliceCap`. -/
def InitialResettingTimerSliceCap : Nat := 10

/-- The Go expression `make([]int64, 0, cap)`: an empty slice (the capacity is not
observable through the methods of the timer). -/
def makeEmpty (_cap : Nat) : List Int := []

/-- NilResettingTimer is a no-op ResettingTimer (an empty struct). -/
structure NilResettingTimer where
  deriving DecidableEq, Repr

/-- StandardResettingTimer: the live buffer. -/
structure StandardResettingTimer where
  values : List Int
  deriving DecidableEq, Repr

/-- ResettingTimerSnapshot is a point-in-time copy of another ResettingTimer. -/
structure ResettingTimerSnapshot where
  values : List Int
  mean : ℚ
  thresholdBoundaries : List Int
  calculated : Bool
  deriving DecidableEq

/-- The interface `ResettingTimer` with its three implementations. -/
inductive ResettingTimer where
  | Nil (t : NilResettingTimer)
  | Standard (t : StandardResettingTimer)
  | Snap (t : ResettingTimerSnapshot)
  deriving DecidableEq

/-- NewResettingTimer, with the package variable `Enabled` as a parameter. -/
def NewResettingTimer (Enabled : Bool) : ResettingTimer :=
  if !Enabled then
    .Nil {}
  else
    .Standard { values := makeEmpty InitialResettingTimerSliceCap }

/-! ### NilResettingTimer -/

/-- Values is a no-op: `return nil`. -/
def NilResettingTimer.Values (_ : NilResettingTimer) : List Int := []

/-- Snapshot is a no-op: `return NilResettingTimer{}`. -/
def NilResettingTimer.Snapshot (_ : NilResettingTimer) : ResettingTimer := .Nil {}

/-- Time is a no-op: the body is empty, the argument is not called and the world is left
as it is. -/
def NilResettingTimer.Time {W : Type} (_ : NilResettingTimer) (_f : Func W) (w : W) : W := w

/-- Update is a no-op. -/
def NilResettingTimer.Update (_ : NilResettingTimer) (_d : Int) : Unit := ()

/-- Percentiles panics. -/
def NilResettingTimer.Percentiles (_ : NilResettingTimer) (_ps : List ℚ) :
    Outcome (List Int) :=
  .panic (.msg "Percentiles called on a NilResettingTimer")

/-- Mean panics. -/
def NilResettingTimer.Mean (_ : NilResettingTimer) : Outcome ℚ :=
  .panic (.msg "Mean called on a NilResettingTimer")

/-- UpdateSince is a no-op. -/
def NilResettingTimer.UpdateSince {T : Type} (_ : NilResettingTimer) (_ts : T) : Unit := ()

/-! ### StandardResettingTimer -/

/-- Values returns a slice with all measurements. -/
def StandardResettingTimer.Values (t : StandardResettingTimer) : List Int := t.values

/-- Snapshot resets the timer and returns a read-only copy of its contents: the receiver
after the call, and the snapshot returned (its derived fields hold Go zero values). -/
def StandardResettingTimer.Snapshot (t : StandardResettingTimer) :
    StandardResettingTimer × ResettingTimerSnapshot :=
  let currentValues := t.values
  ({ values := makeEmpty InitialResettingTimerSliceCap },
   { values := currentValues, mean := 0, thresholdBoundaries := [], calculated := false })

/-- Percentiles panics. -/
def StandardResettingTimer.Percentiles (_ : StandardResettingTimer) (_ps : List ℚ) :
    Outcome (List Int) :=
  .panic (.msg "Percentiles called on a StandardResettingTimer")

/-- Mean panics. -/
def StandardResettingTimer.Mean (_ : StandardResettingTimer) : Outcome ℚ :=
  .panic (.msg "Mean called on a StandardResettingTimer")

/-- Update records the duration of an event: `t.values = append(t.values, int64(d))`. -/
def StandardResettingTimer.Update (t : StandardResettingTimer) (d : Int) :
    StandardResettingTimer :=
  { values := t.values ++ [d] }

/-- UpdateSince records the duration of an event that started at `ts` and ends now. -/
def StandardResettingTimer.UpdateSince {W T : Type} (tp : TimePkg W T)
    (t : StandardResettingTimer) (ts : T) (w : W) : StandardResettingTimer :=
  { values := t.values ++ [tp.Since w ts] }

/-- A Go `func()` that may have captured the Active timer it is passed to: run on the
timer and in a world `W`, it leaves the timer and the world as it changed them and either
returns or panics. -/
abbrev TimerFunc (W : Type) :=
  StandardResettingTimer → W → StandardResettingTimer × W × Option Panic

/-- A closure that does not touch the timer, as a closure on the timer and the world. -/
def Func.onTimer {W : Type} (f : Func W) : TimerFunc W :=
  fun t w => (t, (f w).1, (f w).2)

/-- Time records the duration of the execution of the given function: read the clock, run
`f`, and, when `f` returned, `Update` with the time elapsed, on the timer as `f` left it.
A panic of `f` unwinds through `Time`. -/
def StandardResettingTimer.Time {W T : Type} (tp : TimePkg W T)
    (t : StandardResettingTimer) (f : TimerFunc W) (w : W) :
    StandardResettingTimer × W × Outcome Unit :=
  let ts := tp.Now w
  match f t w with
  | (t1, w1, some p) => (t1, w1, .panic p)
  | (t1, w1, none) => (t1.Update (tp.Since w1 ts), w1, .ret ())

/-! ### ResettingTimerSnapshot -/

/-- Snapshot returns the snapshot. -/
def ResettingTimerSnapshot.Snapshot (t : ResettingTimerSnapshot) : ResettingTimerSnapshot := t

/-- Time panics (before the argument could be called). -/
def ResettingTimerSnapshot.Time {W : Type} (_ : ResettingTimerSnapshot) (_f : Func W)
    (w : W) : W × Outcome Unit :=
  (w, .panic (.msg "Time called on a ResettingTimerSnapshot"))

/-- Update panics. -/
def ResettingTimerSnapshot.Update (_ : ResettingTimerSnapshot) (_d : Int) : Outcome Unit :=
  .panic (.msg "Update called on a ResettingTimerSnapshot")

/-- UpdateSince panics. -/
def ResettingTimerSnapshot.UpdateSince {T : Type} (_ : ResettingTimerSnapshot) (_ts : T) :
    Outcome Unit :=
  .panic (.msg "UpdateSince called on a ResettingTimerSnapshot")

/-- Values returns all values from snapshot. -/
def ResettingTimerSnapshot.Values (t : ResettingTimerSnapshot) : List Int := t.values

/-- The loop of `calc` that fills `cumulativeValues[i]` for `i ≥ 1`:
`cumulativeValues[i] = t.values[i] + cumulativeValues[i-1]`, an `int64` addition. -/
def cumulativeFrom (prev : Int) : List Int → List Int
  | [] => []
  | v :: vs => wrap64 (v + prev) :: cumulativeFrom (wrap64 (v + prev)) vs

/-- The slice `cumulativeValues` of `calc`: `cumulativeValues[0] = min = t.values[0]`, the
rest by the running sum. -/
def cumulativeValues : List Int → List Int
  | [] => []
  | min :: rest => min :: cumulativeFrom min rest

/-- The variable `indexOfPerc` of `calc` for one percentile `pct` and `count` values,
after the conditional decrement:
`int(math.Floor(((abs / 100.0) * float64(count)) + 0.5))`, in float64 arithmetic, and
`indexOfPerc -= 1` on the 64-bit `int`. -/
def indexOfPerc (count : Nat) (pct : ℚ) : Int :=
  let abs : ℚ := if pct ≥ 0 then pct else f64add 100 pct
  let indexOfPerc : Int :=
    intOfFloat64 (mathFloor (f64add (f64mul (f64div abs 100) (float64 count)) (1 / 2)))
  if pct ≥ 0 then wrap64 (indexOfPerc - 1) else indexOfPerc

/-- The loop `for i, pct := range percentiles` of `calc`, from position `i` on, over the
sorted `values`: `tb` is `t.thresholdBoundaries` so far and `thresholdBoundary` the local
variable of that name. It stops with a panic at the first index expression
`t.values[indexOfPerc]` that is out of range, leaving `tb` as filled until then. -/
def calcLoop (values : List Int) (count : Nat) :
    List ℚ → Nat → List Int → Int → List Int × Option Panic
  | [], _, tb, _ => (tb, none)
  | pct :: rest, i, tb, thresholdBoundary =>
    if count > 1 then
      let indexOfPerc := indexOfPerc count pct
      if indexOfPerc < 0 then
        (tb, some (.indexOutOfRange indexOfPerc values.length))
      else
        match values[indexOfPerc.toNat]? with
        | none => (tb, some (.indexOutOfRange indexOfPerc values.length))
        | some v => calcLoop values count rest (i + 1) (tb.set i v) v
    else
      calcLoop values count rest (i + 1) (tb.set i thresholdBoundary) thresholdBoundary

/-- The method `calc`: the snapshot after the call and the panic that ended it, if any.
The sort is in place, so the sorted buffer stays also when the loop panics; `mean`, which
is `float64(sum) / float64(count)`, and `calculated` are assigned only after the loop. -/
def ResettingTimerSnapshot.calc (t : ResettingTimerSnapshot) (percentiles : List ℚ) :
    ResettingTimerSnapshot × Option Panic :=
  let values := Int64Slice.sort t.values
  let count := values.length
  if count > 0 then
    let max := values.getD (count - 1) 0
    let cumulativeValues := cumulativeValues values
    match calcLoop values count percentiles 0 (List.replicate percentiles.length 0) max with
    | (tb, some p) => ({ t with values := values, thresholdBoundaries := tb }, some p)
    | (tb, none) =>
      let sum := cumulativeValues.getD (count - 1) 0
      ({ values := values, mean := f64div (float64 sum) (float64 count),
         thresholdBoundaries := tb, calculated := true }, none)
  else
    ({ values := values, mean := 0,
       thresholdBoundaries := List.replicate percentiles.length 0, calculated := true }, none)

/-- Percentiles returns the boundaries for the input percentiles. -/
def ResettingTimerSnapshot.Percentiles (t : ResettingTimerSnapshot) (percentiles : List ℚ) :
    ResettingTimerSnapshot × Outcome (List Int) :=
  match t.calc percentiles with
  | (t1, some p) => (t1, .panic p)
  | (t1, none) => (t1, .ret t1.thresholdBoundaries)

/-- Mean returns the mean of the snapshotted values. -/
def ResettingTimerSnapshot.Mean (t : ResettingTimerSnapshot) :
    ResettingTimerSnapshot × Outcome ℚ :=
  if !t.calculated then
    match t.calc [] with
    | (t1, some p) => (t1, .panic p)
    | (t1, none) => (t1, .ret t1.mean)
  else
    (t, .ret t.mean)

/-! ### Calls through the interface -/

/-- The call `t.Values()` on an interface value. -/
def ResettingTimer.Values : ResettingTimer → List Int
  | .Nil t => t.Values
  | .Standard t => t.Values
  | .Snap t => t.Values

/-- The call `t.Snapshot()` on an interface value: the receiver after the call and the
value returned. -/
def ResettingTimer.Snapshot : ResettingTimer → ResettingTimer × ResettingTimer
  | .Nil t => (.Nil t, t.Snapshot)
  | .Standard t => (.Standard t.Snapshot.1, .Snap t.Snapshot.2)
  | .Snap t => (.Snap t, .Snap t.Snapshot)

/-- The call `t.Percentiles(ps)` on an interface value. -/
def ResettingTimer.Percentiles : ResettingTimer → List ℚ → ResettingTimer × Outcome (List Int)
  | .Nil t, ps => (.Nil t, t.Percentiles ps)
  | .Standard t, ps => (.Standard t, t.Percentiles ps)
  | .Snap t, ps => (.Snap (t.Percentiles ps).1, (t.Percentiles ps).2)

/-- The call `t.Mean()` on an interface value. -/
def ResettingTimer.Mean : ResettingTimer → ResettingTimer × Outcome ℚ
  | .Nil t => (.Nil t, t.Mean)
  | .Standard t => (.Standard t, t.Mean)
  | .Snap t => (.Snap t.Mean.1, t.Mean.2)

/-- The call `t.Update(d)` on an interface value. -/
def ResettingTimer.Update : ResettingTimer → Int → ResettingTimer × Outcome Unit
  | .Nil t, d => (.Nil t, .ret (t.Update d))
  | .Standard t, d => (.Standard (t.Update d), .ret ())
  | .Snap t, d => (.Snap t, t.Update d)

/-- The call `t.UpdateSince(ts)` on an interface value, in the world `w`. -/
def ResettingTimer.UpdateSince {W T : Type} (tp : TimePkg W T) :
    ResettingTimer → T → W → ResettingTimer × Outcome Unit
  | .Nil t, ts, _ => (.Nil t, .ret (t.UpdateSince ts))
  | .Standard t, ts, w => (.Standard (t.UpdateSince tp ts w), .ret ())
  | .Snap t, ts, _ => (.Snap t, t.UpdateSince ts)

/-- The call `t.Time(f)` on an interface value, in the world `w`, for a closure that does
not touch the timer: the receiver and the world after the call, and how the call ended. -/
def ResettingTimer.Time {W T : Type} (tp : TimePkg W T) :
    ResettingTimer → Func W → W → ResettingTimer × W × Outcome Unit
  | .Nil t, f, w => (.Nil t, t.Time f w, .ret ())
  | .Standard t, f, w => (.Standard (t.Time tp f.onTimer w).1, (t.Time tp f.onTimer w).2)
  | .Snap t, f, w => (.Snap t, t.Time f w)

/-! ### Histories -/

/-- One step of a history of an Active timer. -/
inductive Op where
  | Update (d : Int)
  | Snapshot
  deriving DecidableEq, Repr

/-- The durations passed to `Update` in a history, in call order. -/
def Op.updates : List Op → List Int
  | [] => []
  | .Update d :: ops => d :: Op.updates ops
  | .Snapshot :: ops => Op.updates ops

/-- Apply a history to a timer, one call after another: the timer at the end and the
values returned by the `Snapshot` calls, in the order they were taken. -/
def runOps : ResettingTimer → List Op → ResettingTimer × List ResettingTimer
  | t, [] => (t, [])
  | t, .Update d :: ops => runOps (t.Update d).1 ops
  | t, .Snapshot :: ops =>
    ((runOps t.Snapshot.1 ops).1, t.Snapshot.2 :: (runOps t.Snapshot.1 ops).2)

/-- The snapshots a program can hold: the one returned by `Snapshot` on an Active timer,
and what `Percentiles` and `Mean` leave of a snapshot it can hold (also when the call
panicked and the panic was recovered). -/
inductive ResettingTimerSnapshot.Reachable : ResettingTimerSnapshot → Prop
  | snapshot (t : StandardResettingTimer) : Reachable t.Snapshot.2
  | percentiles {s : ResettingTimerSnapshot} (ps : List ℚ) :
      Reachable s → Reachable (s.Percentiles ps).1
  | mean {s : ResettingTimerSnapshot} : Reachable s → Reachable s.Mean.1

/-! ## NilHistogram -/

/-- NilHistogram is a no-op Histogram (an empty struct). -/
structure NilHistogram where
  deriving DecidableEq, Repr

/-- Clear is a no-op. -/
def NilHistogram.Clear (_ : NilHistogram) : Unit := ()

/-- Count is a no-op. -/
def NilHistogram.Count (_ : NilHistogram) : Int := 0

/-- Max is a no-op. -/
def NilHistogram.Max (_ : NilHistogram) : Int := 0

/-- Mean is a no-op. -/
def NilHistogram.Mean (_ : NilHistogram) : ℚ := 0

/-- Min is a no-op. -/
def NilHistogram.Min (_ : NilHistogram) : Int := 0

/-- Percentile is a no-op. -/
def NilHistogram.Percentile (_ : NilHistogram) (_p : ℚ) : ℚ := 0

/-- Percentiles is a no-op: `make([]float64, len(ps))`. -/
def NilHistogram.Percentiles (_ : NilHistogram) (ps : List ℚ) : List ℚ :=
  List.replicate ps.length 0

/-- Sample is a no-op: `return NilSample{}`. The type `NilSample` is declared in another
file of the package, so its value is a parameter here. -/
def NilHistogram.Sample {S : Type} (NilSample : S) (_ : NilHistogram) : S := NilSample

/-- Snapshot is a no-op: `return NilHistogram{}`. -/
def NilHistogram.Snapshot (_ : NilHistogram) : NilHistogram := {}

/-- StdDev is a no-op. -/
def NilHistogram.StdDev (_ : NilHistogram) : ℚ := 0

/-- Sum is a no-op. -/
def NilHistogram.Sum (_ : NilHistogram) : Int := 0

/-- Update is a no-op. -/
def NilHistogram.Update (_ : NilHistogram) (_v : Int) : Unit := ()

/-- Variance is a no-op. -/
def NilHistogram.Variance (_ : NilHistogram) : ℚ := 0

/-! ## Histogram: constructor, Active and Snapshot variants -/

/-- StandardHistogram is the standard implementation of a Histogram and uses a Sample;
`S` is the type of the values of the interface `Sample`, declared in another file of the
package. -/
structure StandardHistogram (S : Type) where
  sample : S

/-- HistogramSnapshot is a read-only copy of another Histogram; `SS` is the type
`*SampleSnapshot`, declared in another file of the package. -/
structure HistogramSnapshot (SS : Type) where
  sample : SS

/-- The interface `Histogram` with its three implementations. -/
inductive Histogram (S SS : Type) where
  | Nil (h : NilHistogram)
  | Standard (h : StandardHistogram S)
  | Snap (h : HistogramSnapshot SS)

/-- NewHistogram constructs a new StandardHistogram from a Sample; the package variable
`Enabled` is a parameter. -/
def NewHistogram {S SS : Type} (Enabled : Bool) (s : S) : Histogram S SS :=
  if !Enabled then
    .Nil {}
  else
    .Standard { sample := s }

/-- Sample returns the Sample underlying the histogram. -/
def StandardHistogram.Sample {S : Type} (h : StandardHistogram S) : S := h.sample

/-- Clear panics. -/
def HistogramSnapshot.Clear {SS : Type} (_ : HistogramSnapshot SS) : Outcome Unit :=
  .panic (.msg "Clear called on a HistogramSnapshot")

/-- Sample returns the Sample underlying the histogram. -/
def HistogramSnapshot.Sample {SS : Type} (h : HistogramSnapshot SS) : SS := h.sample

/-- Snapshot returns the snapshot. -/
def HistogramSnapshot.Snapshot {SS : Type} (h : HistogramSnapshot SS) :
    HistogramSnapshot SS := h

/-- Update panics. -/
def HistogramSnapshot.Update {SS : Type} (_ : HistogramSnapshot SS) (_v : Int) :
    Outcome Unit :=
  .panic (.msg "Update called on a HistogramSnapshot")

/-! ## Closed forms used by the statements -/

/-- The 64-bit sum of a buffer in closed form: the exact sum of a buffer of at most one
value (no addition is made), and the exact sum wrapped to 64 bits otherwise. -/
def sum64 (vs : List Int) : Int :=
  if vs.length ≤ 1 then vs.sum else wrap64 vs.sum

/-- The mean that `calc` stores for a buffer, in closed form: the float64 quotient of the
64-bit sum and the length, both converted to float64 (`0` for the empty buffer, where no
division is made). -/
def mean64 (vs : List Int) : ℚ :=
  if vs.length = 0 then 0 else f64div (float64 (sum64 vs)) (float64 vs.length)

/-- The cache invariant of a snapshot: once `calculated` is set, `mean` is the mean of
the buffer in closed form. -/
def ResettingTimerSnapshot.Inv (s : ResettingTimerSnapshot) : Prop :=
  s.calculated = true → s.mean = mean64 s.values

/-- The zero-based index of a percentile as the specification words it, in exact
arithmetic rather than in float64: `floor((p/100)*n + 0.5) - 1` when `p ≥ 0`, and `floor(((100+p)/100)*n + 0.5)`
when `p < 0`. -/
def specIndex (n : Nat) (p : ℚ) : Int :=
  if 0 ≤ p then ⌊(p / 100) * (n : ℚ) + 1 / 2⌋ - 1
  else ⌊((100 + p) / 100) * (n : ℚ) + 1 / 2⌋

/-! ## Lemmas on the embedding -/

/-! ### float64 rounding -/

theorem wrap64_add_wrap64 (a b : Int) : wrap64 (a + wrap64 b) = wrap64 (a + b) := by
  unfold wrap64; omega

theorem wrap64_of_range (x : Int) (h1 : -2 ^ 63 ≤ x) (h2 : x < 2 ^ 63) : wrap64 x = x := by
  unfold wrap64; omega

theorem wrap64_range (x : Int) : -2 ^ 63 ≤ wrap64 x ∧ wrap64 x < 2 ^ 63 := by
  unfold wrap64; omega

theorem Int64Slice.insert_perm (x : Int) (l : List Int) :
    (Int64Slice.insert x l).Perm (x :: l) := by
  induction l with
  | nil => exact List.Perm.refl _
  | cons y ys ih =>
    unfold Int64Slice.insert
    split
    · exact List.Perm.refl _
    · exact (List.Perm.cons y ih).trans (List.Perm.swap x y ys)

theorem Int64Slice.sort_perm (l : List Int) : (Int64Slice.sort l).Perm l := by
  induction l with
  | nil => exact List.Perm.refl _
  | cons x xs ih =>
    exact (Int64Slice.insert_perm x _).trans (List.Perm.cons x ih)

theorem Int64Slice.insert_sorted (x : Int) (l : List Int) (h : List.Sorted (· ≤ ·) l) :
    List.Sorted (· ≤ ·) (Int64Slice.insert x l) := by
  induction l with
  | nil => simp [Int64Slice.insert]
  | cons y ys ih =>
    unfold Int64Slice.insert
    have hy := List.sorted_cons.mp h
    split
    · rename_i hlt
      have hxy : x < y := by simpa [Int64Slice.Less] using hlt
      refine List.sorted_cons.mpr ⟨?_, h⟩
      intro b hb
      rcases List.mem_cons.mp hb with rfl | hb
      · exact le_of_lt hxy
      · exact le_trans (le_of_lt hxy) (hy.1 b hb)
    · rename_i hlt
      have hyx : y ≤ x := by simpa [Int64Slice.Less] using hlt
      refine List.sorted_cons.mpr ⟨?_, ih hy.2⟩
      intro b hb
      rcases List.mem_cons.mp ((Int64Slice.insert_perm x ys).subset hb) with rfl | hb
      · exact hyx
      · exact hy.1 b hb

theorem Int64Slice.sort_sorted (l : List Int) : List.Sorted (· ≤ ·) (Int64Slice.sort l) := by
  induction l with
  | nil => simp [Int64Slice.sort]
  | cons x xs ih => exact Int64Slice.insert_sorted x _ ih

theorem Int64Slice.sort_length (l : List Int) : (Int64Slice.sort l).length = l.length :=
  (Int64Slice.sort_perm l).length_eq

theorem Int64Slice.sort_sum (l : List Int) : (Int64Slice.sort l).sum = l.sum :=
  (Int64Slice.sort_perm l).sum_eq

/-- The sum that `calc` divides by the count: the last entry of `cumulativeValues`. -/
theorem cumulativeFrom_last (prev v : Int) (vs : List Int) :
    (cumulativeFrom prev (v :: vs)).getD vs.length 0 = wrap64 ((v :: vs).sum + prev) := by
  induction vs generalizing prev v with
  | nil => simp [cumulativeFrom]
  | cons w ws ih =>
    simp only [cumulativeFrom, List.length_cons, List.getD_cons_succ] at ih ⊢
    rw [ih, wrap64_add_wrap64]
    simp only [List.sum_cons]
    congr 1; ring

theorem List.set_length_append_cons {α : Type} (pre : List α) (x b : α) (tl : List α) :
    (pre ++ x :: tl).set pre.length b = pre ++ b :: tl := by
  induction pre with
  | nil => rfl
  | cons a as ih => simp [ih]

/-- With at most one value the loop writes the initial `thresholdBoundary` at every
position and never indexes the buffer. -/
theorem calcLoop_small (values : List Int) (count : Nat) (hc : ¬ count > 1)
    (ps : List ℚ) (pre : List Int) (b : Int) :
    calcLoop values count ps pre.length (pre ++ List.replicate ps.length 0) b
      = (pre ++ List.replicate ps.length b, none) := by
  induction ps generalizing pre with
  | nil => simp [calcLoop]
  | cons p ps ih =>
    have h := ih (pre ++ [b])
    simp only [List.length_append, List.length_singleton, List.append_assoc,
      List.singleton_append] at h
    simp only [calcLoop, hc, if_false, List.length_cons, List.replicate_succ,
      List.set_length_append_cons]
    exact h

/-- With two values or more, and every index in range, the loop writes at position `i`
the value found at the index of the `i`-th percentile. -/
theorem calcLoop_inRange (values : List Int) (count : Nat) (hc : count > 1)
    (ps : List ℚ)
    (hps : ∀ p ∈ ps, 0 ≤ indexOfPerc count p ∧ indexOfPerc count p < values.length)
    (pre : List Int) (b : Int) :
    calcLoop values count ps pre.length (pre ++ List.replicate ps.length 0) b
      = (pre ++ ps.map (fun p => values.getD (indexOfPerc count p).toNat 0), none) := by
  induction ps generalizing pre b with
  | nil => simp [calcLoop]
  | cons p ps ih =>
    obtain ⟨h0, h1⟩ := hps p (List.mem_cons_self p ps)
    have hlt : (indexOfPerc count p).toNat < values.length := by omega
    have hget : values[(indexOfPerc count p).toNat]?
        = some (values.getD (indexOfPerc count p).toNat 0) := by
      rw [List.getD_eq_getElem?_getD, List.getElem?_eq_getElem hlt]; rfl
    have h := ih (fun q hq => hps q (List.mem_cons_of_mem p hq)) (pre ++ [values.getD (indexOfPerc count p).toNat 0])
      (values.getD (indexOfPerc count p).toNat 0)
    simp only [List.length_append, List.length_singleton, List.append_assoc,
      List.singleton_append] at h
    simp only [calcLoop, hc, if_true, not_lt.mpr h0, if_false, hget, List.length_cons,
      List.replicate_succ, List.set_length_append_cons, List.map_cons]
    exact h

theorem sum64_perm {l₁ l₂ : List Int} (h : l₁.Perm l₂) : sum64 l₁ = sum64 l₂ := by
  unfold sum64; rw [h.length_eq, h.sum_eq]

theorem mean64_perm {l₁ l₂ : List Int} (h : l₁.Perm l₂) : mean64 l₁ = mean64 l₂ := by
  unfold mean64; rw [h.length_eq, sum64_perm h]

/-- The last entry of `cumulativeValues` is the 64-bit sum of the buffer. -/
theorem cumulativeValues_last (vs : List Int) (h : vs ≠ []) :
    (cumulativeValues vs).getD (vs.length - 1) 0 = sum64 vs := by
  match vs, h with
  | [m], _ => simp [cumulativeValues, cumulativeFrom, sum64]
  | m :: v :: rest, _ =>
    have hl := cumulativeFrom_last m v rest
    simp only [cumulativeValues, List.length_cons, Nat.add_sub_cancel, List.getD_cons_succ,
      sum64]
    rw [hl]
    have : ¬ (rest.length + 1 + 1 ≤ 1) := by omega
    rw [if_neg this]
    simp only [List.sum_cons]
    congr 1; ring

/-- A 64-bit sum that fits is the exact sum. -/
theorem sum64_of_fits (vs : List Int) (h1 : -2 ^ 63 ≤ vs.sum) (h2 : vs.sum < 2 ^ 63) :
    sum64 vs = vs.sum := by
  unfold sum64; split
  · rfl
  · exact wrap64_of_range _ h1 h2

theorem ResettingTimerSnapshot.calc_values (t : ResettingTimerSnapshot) (ps : List ℚ) :
    (t.calc ps).1.values = Int64Slice.sort t.values := by
  unfold ResettingTimerSnapshot.calc
  simp only
  split
  · split <;> rfl
  · rfl

/-- What `calc` leaves when it returns: the sorted buffer, the mean in closed form, the
boundaries written by the loop and the flag set. -/
theorem ResettingTimerSnapshot.calc_mean (t : ResettingTimerSnapshot) (ps : List ℚ)
    (h : (t.calc ps).2 = none) :
    (t.calc ps).1.mean = mean64 t.values ∧ (t.calc ps).1.calculated = true := by
  unfold ResettingTimerSnapshot.calc at h ⊢
  simp only at h ⊢
  split
  · rename_i hc
    split
    · rename_i tb p heq
      rw [if_pos hc, heq] at h
      simp at h
    · rename_i tb heq
      have hne : Int64Slice.sort t.values ≠ [] := by
        intro h0; rw [h0] at hc; simp at hc
      have hlen : ¬ t.values.length = 0 := by
        rw [Int64Slice.sort_length] at hc; omega
      simp only [and_true]
      rw [cumulativeValues_last _ hne, sum64_perm (Int64Slice.sort_perm t.values),
        Int64Slice.sort_length]
      unfold mean64
      rw [if_neg hlen]
  · rename_i hc
    have hlen : t.values.length = 0 := by
      rw [Int64Slice.sort_length] at hc; omega
    simp [mean64, hlen]

/-- What `calc` leaves when it panics: `mean` and `calculated` as they were. -/
theorem ResettingTimerSnapshot.calc_panic (t : ResettingTimerSnapshot) (ps : List ℚ)
    (p : Panic) (h : (t.calc ps).2 = some p) :
    (t.calc ps).1.mean = t.mean ∧ (t.calc ps).1.calculated = t.calculated := by
  unfold ResettingTimerSnapshot.calc at h ⊢
  simp only at h ⊢
  split
  · rename_i hc
    split
    · exact ⟨rfl, rfl⟩
    · rename_i tb heq
      rw [if_pos hc, heq] at h
      simp at h
  · rename_i hc
    rw [if_neg hc] at h
    simp at h

theorem ResettingTimerSnapshot.calc_inv (t : ResettingTimerSnapshot) (ps : List ℚ)
    (h : t.Inv) : (t.calc ps).1.Inv := by
  intro hcalc
  rw [ResettingTimerSnapshot.calc_values, mean64_perm (Int64Slice.sort_perm t.values)]
  cases hp : (t.calc ps).2 with
  | none => exact (ResettingTimerSnapshot.calc_mean t ps hp).1
  | some p =>
    obtain ⟨hm, hcal⟩ := ResettingTimerSnapshot.calc_panic t ps p hp
    rw [hm]
    exact h (hcal ▸ hcalc)

theorem ResettingTimerSnapshot.Percentiles_state (t : ResettingTimerSnapshot) (ps : List ℚ) :
    (t.Percentiles ps).1 = (t.calc ps).1 := by
  unfold ResettingTimerSnapshot.Percentiles
  split <;> rename_i heq <;> rw [heq]

theorem ResettingTimerSnapshot.Mean_state (t : ResettingTimerSnapshot) :
    t.Mean.1 = if t.calculated then t else (t.calc []).1 := by
  unfold ResettingTimerSnapshot.Mean
  cases hc : t.calculated
  · simp only [Bool.not_false, if_true]
    split <;> rename_i heq <;> rw [heq] <;> simp
  · simp

/-- Every snapshot a program can hold satisfies the cache invariant. -/
theorem ResettingTimerSnapshot.Reachable.inv {s : ResettingTimerSnapshot}
    (h : s.Reachable) : s.Inv := by
  induction h with
  | snapshot t => intro hc; simp [StandardResettingTimer.Snapshot] at hc
  | percentiles ps _ ih =>
    rw [ResettingTimerSnapshot.Percentiles_state]
    exact ResettingTimerSnapshot.calc_inv _ ps ih
  | mean _ ih =>
    rw [ResettingTimerSnapshot.Mean_state]
    split
    · exact ih
    · exact ResettingTimerSnapshot.calc_inv _ [] ih

theorem ResettingTimerSnapshot.calc_nil_returns (t : ResettingTimerSnapshot) :
    (t.calc []).2 = none := by
  unfold ResettingTimerSnapshot.calc
  simp only [calcLoop]
  split <;> rfl

/-- The value `Mean` returns on a snapshot that satisfies the cache invariant. -/
theorem ResettingTimerSnapshot.Mean_result (t : ResettingTimerSnapshot) (h : t.Inv) :
    t.Mean.2 = .ret (mean64 t.values) := by
  unfold ResettingTimerSnapshot.Mean
  cases hc : t.calculated
  · have hnone := ResettingTimerSnapshot.calc_nil_returns t
    have hm := (ResettingTimerSnapshot.calc_mean t [] hnone).1
    rcases hcalc : t.calc [] with ⟨t1, o⟩
    rw [hcalc] at hnone hm
    simp only at hnone hm
    subst hnone
    simp [hm]
  · simp [h hc]

/-- What `Percentiles` returns on a snapshot of two values or more when every index is
in range. -/
theorem ResettingTimerSnapshot.Percentiles_inRange (t : ResettingTimerSnapshot)
    (ps : List ℚ) (hn : 2 ≤ t.values.length)
    (hidx : ∀ p ∈ ps, 0 ≤ indexOfPerc t.values.length p
      ∧ indexOfPerc t.values.length p < t.values.length) :
    (t.Percentiles ps).2 = .ret (ps.map fun p =>
      (Int64Slice.sort t.values).getD (indexOfPerc t.values.length p).toNat 0) := by
  have hlen := Int64Slice.sort_length t.values
  have hloop := calcLoop_inRange (Int64Slice.sort t.values) (Int64Slice.sort t.values).length
    (by omega) ps (by rw [hlen]; exact hidx) []
    ((Int64Slice.sort t.values).getD ((Int64Slice.sort t.values).length - 1) 0)
  simp only [List.length_nil, List.nil_append, hlen] at hloop
  have hpos : t.values.length > 0 := by omega
  unfold ResettingTimerSnapshot.Percentiles ResettingTimerSnapshot.calc
  simp only [hlen, hpos, if_true, hloop]

/-- C1: `Snapshot()` on an Active timer whose buffer is `vs` returns a
ResettingTimerSnapshot whose `Values()` is `vs`, same elements in the same order, and
`Values()` on the timer right after the call is empty. -/
theorem Snapshot_takes_buffer (vs : List Int) :
    ∃ s : ResettingTimerSnapshot,
      (ResettingTimer.Standard { values := vs }).Snapshot.2 = .Snap s
        ∧ (ResettingTimer.Snap s).Values = vs
        ∧ (ResettingTimer.Standard { values := vs }).Snapshot.1.Values = [] :=
  ⟨_, rfl, rfl, rfl⟩

theorem runOps_standard (t : StandardResettingTimer) (ops : List Op) :
    ((runOps (.Standard t) ops).2.map ResettingTimer.Values).flatten
        ++ (runOps (.Standard t) ops).1.Values
      = t.values ++ Op.updates ops := by
  induction ops generalizing t with
  | nil => simp [runOps, Op.updates, ResettingTimer.Values, StandardResettingTimer.Values]
  | cons op ops ih =>
    cases op with
    | Update d =>
      simp only [runOps, ResettingTimer.Update, Op.updates]
      rw [ih]
      simp [StandardResettingTimer.Update]
    | Snapshot =>
      simp only [runOps, ResettingTimer.Snapshot, Op.updates, List.map_cons,
        List.flatten_cons, List.append_assoc]
      rw [ih]
      simp [ResettingTimer.Values, ResettingTimerSnapshot.Values,
        StandardResettingTimer.Snapshot, makeEmpty]

/-- C2: for every sequence of `Update(d)` and `Snapshot()` calls applied to a freshly
constructed Active timer, the `Values()` of the snapshots returned, concatenated in the
order they were taken and followed by the final live buffer, are the updated durations in
call order; every snapshot returned is a ResettingTimerSnapshot. -/
theorem runOps_values_partition (ops : List Op) :
    ((runOps (NewResettingTimer true) ops).2.map ResettingTimer.Values).flatten
        ++ (runOps (NewResettingTimer true) ops).1.Values
      = Op.updates ops := by
  have h := runOps_standard { values := makeEmpty InitialResettingTimerSliceCap } ops
  simpa [NewResettingTimer, makeEmpty] using h

theorem indexOfPerc_5_50 : indexOfPerc 5 50 = 2 := by decide!

/-- C3 as stated fails: on the 25 values `1, ..., 25` and the percentile `58` the index
of the exact formula is `14`, in range, where `15` stands, and `Percentiles([58])`
returns `[14]`, the entry at the float64 index `13`. -/
theorem Percentiles_exact_index_fails :
    (0 ≤ specIndex 25 58 ∧ specIndex 25 58 < 25)
      ∧ (Int64Slice.sort [1, 2, 3, 4, 5, 6, 7, 8, 9, 10, 11, 12, 13, 14, 15, 16, 17, 18, 19,
          20, 21, 22, 23, 24, 25]).getD (specIndex 25 58).toNat 0 = 15
      ∧ indexOfPerc 25 58 = 13
      ∧ (ResettingTimerSnapshot.Percentiles
          { values := [1, 2, 3, 4, 5, 6, 7, 8, 9, 10, 11, 12, 13, 14, 15, 16, 17, 18, 19,
              20, 21, 22, 23, 24, 25],
            mean := 0, thresholdBoundaries := [], calculated := false } [58]).2
        = .ret [14] := by
  decide!

/-- C3, amended: on a snapshot of `n ≥ 2` values and percentiles `ps` whose computed
indices all lie in `0..n-1`, `Percentiles(ps)` returns the list, as long as `ps`, whose
`i`-th entry is the entry of the ascending arrangement of the values at the index of
`ps[i]`, the index being computed in float64 arithmetic, every operation rounded:
`int(floor((p/100)*n + 0.5)) - 1` for `p ≥ 0` and `int(floor(((100+p)/100)*n + 0.5))`
for `p < 0`. -/
theorem Percentiles_float64_rank (t : ResettingTimerSnapshot) (ps : List ℚ)
    (hn : 2 ≤ t.values.length)
    (hidx : ∀ p ∈ ps, 0 ≤ indexOfPerc t.values.length p
      ∧ indexOfPerc t.values.length p < t.values.length) :
    List.Sorted (· ≤ ·) (Int64Slice.sort t.values)
      ∧ (Int64Slice.sort t.values).Perm t.values
      ∧ (t.Percentiles ps).2 = .ret (ps.map fun p =>
          (Int64Slice.sort t.values).getD (indexOfPerc t.values.length p).toNat 0)
      ∧ (∀ (n : Nat) (p : ℚ), 0 ≤ p → indexOfPerc n p = wrap64 (intOfFloat64 (mathFloor
          (f64add (f64mul (f64div p 100) (float64 n)) (1 / 2))) - 1))
      ∧ (∀ (n : Nat) (p : ℚ), p < 0 → indexOfPerc n p = intOfFloat64 (mathFloor
          (f64add (f64mul (f64div (f64add 100 p) 100) (float64 n)) (1 / 2)))) := by
  refine ⟨Int64Slice.sort_sorted _, Int64Slice.sort_perm _,
    ResettingTimerSnapshot.Percentiles_inRange t ps hn hidx, ?_, ?_⟩
  · intro n p hp
    unfold indexOfPerc
    simp [hp]
  · intro n p hp
    unfold indexOfPerc
    simp [not_le.mpr hp]

/-- C3 amended, at the values `[10, 20, 30, 40, 50]` and the percentile `50`: the
boundary is `30`. -/
theorem Percentiles_float64_rank_witness :
    (ResettingTimerSnapshot.Percentiles
      { values := [10, 20, 30, 40, 50], mean := 0, thresholdBoundaries := [],
        calculated := false } [50]).2 = .ret [30] := by
  have h := (Percentiles_float64_rank
    { values := [10, 20, 30, 40, 50], mean := 0, thresholdBoundaries := [],
      calculated := false } [50] (by decide)
    (by
      intro p hp
      rw [List.mem_singleton.mp hp]
      simp only [List.length_cons, List.length_nil]
      rw [indexOfPerc_5_50]
      decide)).2.2.1
  rw [h]
  simp only [List.length_cons, List.length_nil, List.map_cons, List.map_nil]
  rw [indexOfPerc_5_50]
  rfl

/-- C4 as stated fails: on the snapshot of `[1, 1, 2]`, whose sum is `4`, `Mean()`
returns the float64 `1.3333333333333333`, which is not `4/3`. -/
theorem Mean_not_exact_quotient :
    (StandardResettingTimer.Snapshot { values := [1, 1, 2] }).2.Mean.2
        = .ret (6004799503160661 / 4503599627370496)
      ∧ (StandardResettingTimer.Snapshot { values := [1, 1, 2] }).2.Mean.2
        ≠ .ret (4 / 3) := by
  decide!

/-- C4, amended: on a snapshot of `n ≥ 1` values whose exact sum fits in a signed 64-bit
integer, `Mean()` returns `float64(sum) / float64(n)`: that sum and `n`, each converted
to float64, divided in float64 arithmetic. The sum is over the values as recorded, and
nothing is asked of the partial sums of the sorted values, which may wrap. -/
theorem Mean_float64_quotient (t : ResettingTimerSnapshot) (hr : t.Reachable)
    (hn : 1 ≤ t.values.length)
    (hlo : -2 ^ 63 ≤ t.values.sum) (hhi : t.values.sum < 2 ^ 63) :
    t.Mean.2 = .ret (f64div (float64 t.values.sum) (float64 t.values.length)) := by
  rw [ResettingTimerSnapshot.Mean_result t hr.inv]
  unfold mean64
  rw [if_neg (by omega), sum64_of_fits _ hlo hhi]

/-- C4 amended, at the buffer `[2^63 - 1, 7, -1, -2^63]`: in ascending order the second
partial sum `-2^63 - 1` wraps, the exact sum is `5`, and `Mean()` returns `1.25`. -/
theorem Mean_float64_quotient_witness :
    wrap64 (-9223372036854775808 + -1) = 9223372036854775807
      ∧ (StandardResettingTimer.Snapshot
          { values := [9223372036854775807, 7, -1, -9223372036854775808] }).2.Mean.2
        = .ret (5 / 4) := by
  refine ⟨by decide, ?_⟩
  have h := Mean_float64_quotient
    (StandardResettingTimer.Snapshot
      { values := [9223372036854775807, 7, -1, -9223372036854775808] }).2
    (.snapshot _) (by decide) (by decide) (by decide)
  rw [h]
  decide!

/-- C5: on a snapshot holding exactly one value `v`, `Percentiles(ps)` returns, for every
list `ps` of percentiles, the list of length `len(ps)` whose entries are all `v`. -/
theorem Percentiles_single_value (t : ResettingTimerSnapshot) (v : Int) (ps : List ℚ)
    (h : t.values = [v]) :
    (t.Percentiles ps).2 = .ret (List.replicate ps.length v) := by
  have hloop := calcLoop_small [v] 1 (by decide) ps [] v
  simp only [List.length_nil, List.nil_append] at hloop
  unfold ResettingTimerSnapshot.Percentiles ResettingTimerSnapshot.calc
  simp [h, Int64Slice.sort, Int64Slice.insert, hloop]

/-- C5, at the value `7` and percentiles positive, zero, negative and outside
`[-100, 100]`. -/
theorem Percentiles_single_value_witness :
    (ResettingTimerSnapshot.Percentiles
      { values := [7], mean := 0, thresholdBoundaries := [], calculated := false }
      [50, 0, -10, 1000, -1000]).2 = .ret [7, 7, 7, 7, 7] :=
  Percentiles_single_value _ 7 [50, 0, -10, 1000, -1000] rfl

/-- C6: on a snapshot holding no values, `Mean()` returns `0` and `Percentiles(ps)`
returns, for every list `ps`, the list of `len(ps)` zeros. -/
theorem Mean_Percentiles_empty (t : ResettingTimerSnapshot) (ps : List ℚ)
    (hr : t.Reachable) (h : t.values = []) :
    t.Mean.2 = .ret 0 ∧ (t.Percentiles ps).2 = .ret (List.replicate ps.length 0) := by
  constructor
  · rw [ResettingTimerSnapshot.Mean_result t hr.inv, h]
    rfl
  · unfold ResettingTimerSnapshot.Percentiles ResettingTimerSnapshot.calc
    simp [h, Int64Slice.sort]

/-- C6, at the snapshot of an Active timer that recorded nothing. -/
theorem Mean_Percentiles_empty_witness :
    (StandardResettingTimer.Snapshot { values := [] }).2.Mean.2 = .ret 0
      ∧ ((StandardResettingTimer.Snapshot { values := [] }).2.Percentiles [50, -10, 0]).2
        = .ret [0, 0, 0] :=
  Mean_Percentiles_empty (StandardResettingTimer.Snapshot { values := [] }).2 [50, -10, 0]
    (.snapshot _) rfl

/-- C9 as stated fails: `Percentiles` on the NilResettingTimer does not return, it
panics, already on the empty list of percentiles. -/
theorem NilResettingTimer_Percentiles_does_not_return :
    (ResettingTimer.Percentiles (.Nil {}) []).2.returns = false
      ∧ (ResettingTimer.Percentiles (.Nil {}) []).2
        = .panic (.msg "Percentiles called on a NilResettingTimer") :=
  ⟨rfl, rfl⟩

/-- C9, amended: every method of NilHistogram, and the methods `Values`, `Snapshot`,
`Time`, `Update` and `UpdateSince` of NilResettingTimer, return normally with a zero
value, an empty or zero-filled list, a Nil instance, or no effect (the closure passed to
`Time` is not run, the world is unchanged); `Percentiles` and `Mean` of NilResettingTimer
panic. -/
theorem Nil_variants_behaviour {W T S : Type} (tp : TimePkg W T) (NilSample : S)
    (h : NilHistogram) (t : NilResettingTimer) (v d : Int) (p : ℚ) (ps : List ℚ)
    (f : Func W) (ts : T) (w : W) :
    (h.Clear = () ∧ h.Update v = ()
      ∧ h.Count = 0 ∧ h.Max = 0 ∧ h.Min = 0 ∧ h.Sum = 0
      ∧ h.Mean = 0 ∧ h.StdDev = 0 ∧ h.Variance = 0 ∧ h.Percentile p = 0
      ∧ h.Percentiles ps = List.replicate ps.length 0
      ∧ h.Sample NilSample = NilSample ∧ h.Snapshot = {})
    ∧ ((ResettingTimer.Nil t).Values = []
      ∧ (ResettingTimer.Nil t).Snapshot = (.Nil t, .Nil {})
      ∧ (ResettingTimer.Nil t).Update d = (.Nil t, .ret ())
      ∧ (ResettingTimer.Nil t).UpdateSince tp ts w = (.Nil t, .ret ())
      ∧ (ResettingTimer.Nil t).Time tp f w = (.Nil t, w, .ret ()))
    ∧ ((ResettingTimer.Nil t).Percentiles ps
        = (.Nil t, .panic (.msg "Percentiles called on a NilResettingTimer"))
      ∧ (ResettingTimer.Nil t).Mean
        = (.Nil t, .panic (.msg "Mean called on a NilResettingTimer"))) :=
  ⟨⟨rfl, rfl, rfl, rfl, rfl, rfl, rfl, rfl, rfl, rfl, rfl, rfl, rfl⟩,
   ⟨rfl, rfl, rfl, rfl, rfl⟩, ⟨rfl, rfl⟩⟩

/-- C10: `Percentiles(ps)` and `Mean()` on an Active timer and on the NilResettingTimer
panic for every argument and return no value; the receiver is left as it was. -/
theorem Percentiles_Mean_panic_off_snapshot (std : StandardResettingTimer)
    (nil : NilResettingTimer) (ps : List ℚ) :
    (ResettingTimer.Standard std).Percentiles ps
        = (.Standard std, .panic (.msg "Percentiles called on a StandardResettingTimer"))
      ∧ (ResettingTimer.Standard std).Mean
        = (.Standard std, .panic (.msg "Mean called on a StandardResettingTimer"))
      ∧ (ResettingTimer.Nil nil).Percentiles ps
        = (.Nil nil, .panic (.msg "Percentiles called on a NilResettingTimer"))
      ∧ (ResettingTimer.Nil nil).Mean
        = (.Nil nil, .panic (.msg "Mean called on a NilResettingTimer")) :=
  ⟨rfl, rfl, rfl, rfl⟩

/-- C11: every write operation on a snapshot panics for every input and does not return:
`Clear()` and `Update(v)` of HistogramSnapshot, and `Update(d)`, `UpdateSince(ts)` and
`Time(f)` of ResettingTimerSnapshot; the snapshot is left as it was, and `Time` panics
before its argument could run, so the world is left as it was too. -/
theorem Snapshot_writes_panic {W T SS : Type} (tp : TimePkg W T)
    (h : HistogramSnapshot SS) (t : ResettingTimerSnapshot) (v d : Int) (ts : T)
    (f : Func W) (w : W) :
    h.Clear = .panic (.msg "Clear called on a HistogramSnapshot")
      ∧ h.Update v = .panic (.msg "Update called on a HistogramSnapshot")
      ∧ (ResettingTimer.Snap t).Update d
        = (.Snap t, .panic (.msg "Update called on a ResettingTimerSnapshot"))
      ∧ (ResettingTimer.Snap t).UpdateSince tp ts w
        = (.Snap t, .panic (.msg "UpdateSince called on a ResettingTimerSnapshot"))
      ∧ (ResettingTimer.Snap t).Time tp f w
        = (.Snap t, w, .panic (.msg "Time called on a ResettingTimerSnapshot")) :=
  ⟨rfl, rfl, rfl, rfl, rfl⟩

/-- The loop writes into the boundaries slice and never changes its length. -/
theorem calcLoop_length (values : List Int) (count : Nat) (ps : List ℚ) (i : Nat)
    (tb : List Int) (b : Int) :
    (calcLoop values count ps i tb b).1.length = tb.length := by
  induction ps generalizing i tb b with
  | nil => simp [calcLoop]
  | cons p ps ih =>
    simp only [calcLoop]
    split
    · split
      · rfl
      · split
        · rfl
        · rw [ih, List.length_set]
    · rw [ih, List.length_set]

/-- An ascending buffer is left as it is by the sort. -/
theorem Int64Slice.sort_eq_self (l : List Int) (h : List.Sorted (· ≤ ·) l) :
    Int64Slice.sort l = l :=
  List.eq_of_perm_of_sorted (Int64Slice.sort_perm l) (Int64Slice.sort_sorted l) h

/-- The snapshot that a returning `Percentiles` leaves: the sorted buffer, the mean in
closed form, the list returned as stored boundaries, and the flag set. -/
theorem ResettingTimerSnapshot.Percentiles_returns_state (t : ResettingTimerSnapshot)
    (ps : List ℚ) (r : List Int) (h : (t.Percentiles ps).2 = .ret r) :
    (t.Percentiles ps).1
      = { values := Int64Slice.sort t.values,
          mean := mean64 t.values,
          thresholdBoundaries := r, calculated := true } := by
  have hv := ResettingTimerSnapshot.calc_values t ps
  have hm := ResettingTimerSnapshot.calc_mean t ps
  unfold ResettingTimerSnapshot.Percentiles at h ⊢
  rcases hcalc : t.calc ps with ⟨t1, o⟩
  rw [hcalc] at h hv hm
  cases o with
  | some p => simp at h
  | none =>
    simp only [Outcome.ret.injEq] at h hv hm ⊢
    obtain ⟨hmean, hcal⟩ := hm trivial
    cases t1
    simp only at h hv hmean hcal
    subst h hv hmean hcal
    rfl

/-- The boundaries slice that `calc` leaves is as long as the list of percentiles, also
when the loop panicked. -/
theorem ResettingTimerSnapshot.calc_boundaries_length (t : ResettingTimerSnapshot)
    (ps : List ℚ) : (t.calc ps).1.thresholdBoundaries.length = ps.length := by
  have hl := calcLoop_length (Int64Slice.sort t.values) (Int64Slice.sort t.values).length
    ps 0 (List.replicate ps.length 0)
    ((Int64Slice.sort t.values).getD ((Int64Slice.sort t.values).length - 1) 0)
  rw [List.length_replicate] at hl
  unfold ResettingTimerSnapshot.calc
  simp only
  split
  · split
    · rename_i tb p heq
      rw [heq] at hl
      exact hl
    · rename_i tb heq
      rw [heq] at hl
      exact hl
  · simp

/-- The list a returning `Percentiles` hands back is as long as its argument. -/
theorem ResettingTimerSnapshot.Percentiles_returns_length (t : ResettingTimerSnapshot)
    (ps : List ℚ) (r : List Int) (h : (t.Percentiles ps).2 = .ret r) :
    r.length = ps.length := by
  have hs := ResettingTimerSnapshot.Percentiles_returns_state t ps r h
  have hl := ResettingTimerSnapshot.calc_boundaries_length t ps
  rw [← ResettingTimerSnapshot.Percentiles_state, hs] at hl
  exact hl

/-- The snapshot of `[10, 20, 30, 40, 50]` after `Percentiles([50])`. -/
theorem snapshot_10_50_after_Percentiles_50 :
    ((StandardResettingTimer.Snapshot { values := [10, 20, 30, 40, 50] }).2.Percentiles
        [50]).1
      = { values := [10, 20, 30, 40, 50], mean := 30, thresholdBoundaries := [30],
          calculated := true } := by
  decide!

theorem ResettingTimerSnapshot.Percentiles_values (t : ResettingTimerSnapshot)
    (ps : List ℚ) : (t.Percentiles ps).1.values = Int64Slice.sort t.values := by
  rw [ResettingTimerSnapshot.Percentiles_state, ResettingTimerSnapshot.calc_values]

theorem ResettingTimerSnapshot.Mean_values (t : ResettingTimerSnapshot) :
    t.Mean.1.values = if t.calculated then t.values else Int64Slice.sort t.values := by
  rw [ResettingTimerSnapshot.Mean_state]
  split
  · rfl
  · exact ResettingTimerSnapshot.calc_values t []

/-- C12 as stated fails: on the snapshot of `[10, 20, 30, 40, 50]`, computed by a first
`Percentiles([50])` that stored the boundaries `[30]`, a later `Percentiles([100])`
recomputes and leaves the stored boundaries `[50]`. -/
theorem Percentiles_replaces_stored_boundaries :
    ((StandardResettingTimer.Snapshot { values := [10, 20, 30, 40, 50] }).2.Percentiles
        [50]).1.calculated = true
      ∧ ((StandardResettingTimer.Snapshot { values := [10, 20, 30, 40, 50] }).2.Percentiles
        [50]).1.thresholdBoundaries = [30]
      ∧ ((((StandardResettingTimer.Snapshot
          { values := [10, 20, 30, 40, 50] }).2.Percentiles [50]).1.Percentiles
            [100]).1).thresholdBoundaries = [50] := by
  decide!

/-- C12, amended: once the derived statistics of a snapshot have been computed, every
later `Mean()` performs no recomputation and leaves the snapshot as it is, and every
later `Percentiles(ps)` recomputes: it leaves the stored mean and the flag unchanged,
and when it returns the stored boundaries are the list it returns, as long as `ps`. -/
theorem Mean_cached_Percentiles_recomputes (s : ResettingTimerSnapshot) (ps : List ℚ)
    (hr : s.Reachable) (hc : s.calculated = true) :
    s.Mean = (s, .ret s.mean)
      ∧ (s.Percentiles ps).1.mean = s.mean
      ∧ (s.Percentiles ps).1.calculated = true
      ∧ (∀ r, (s.Percentiles ps).2 = .ret r →
          (s.Percentiles ps).1.thresholdBoundaries = r ∧ r.length = ps.length) := by
  refine ⟨?_, ?_, ?_, ?_⟩
  · unfold ResettingTimerSnapshot.Mean
    simp [hc]
  · rw [ResettingTimerSnapshot.Percentiles_state]
    cases hp : (s.calc ps).2 with
    | none => rw [(ResettingTimerSnapshot.calc_mean s ps hp).1, hr.inv hc]
    | some p => exact (ResettingTimerSnapshot.calc_panic s ps p hp).1
  · rw [ResettingTimerSnapshot.Percentiles_state]
    cases hp : (s.calc ps).2 with
    | none => exact (ResettingTimerSnapshot.calc_mean s ps hp).2
    | some p => rw [(ResettingTimerSnapshot.calc_panic s ps p hp).2, hc]
  · intro r h
    refine ⟨?_, ResettingTimerSnapshot.Percentiles_returns_length s ps r h⟩
    rw [ResettingTimerSnapshot.Percentiles_returns_state s ps r h]

/-- C12 amended, at the snapshot of `[10, 20, 30, 40, 50]` after a first
`Percentiles([50])`: `Mean()` returns the stored `30` and changes nothing, and
`Percentiles([100])` keeps the mean `30`. -/
theorem Mean_cached_Percentiles_recomputes_witness :
    (ResettingTimerSnapshot.Mean
        { values := [10, 20, 30, 40, 50], mean := 30, thresholdBoundaries := [30],
          calculated := true }).2 = .ret 30
      ∧ ((ResettingTimerSnapshot.Percentiles
        { values := [10, 20, 30, 40, 50], mean := 30, thresholdBoundaries := [30],
          calculated := true } [100]).1).mean = 30 := by
  have hreach : ResettingTimerSnapshot.Reachable
      { values := [10, 20, 30, 40, 50], mean := 30, thresholdBoundaries := [30],
        calculated := true } := by
    rw [← snapshot_10_50_after_Percentiles_50]
    exact .percentiles [50] (.snapshot _)
  have h := Mean_cached_Percentiles_recomputes
    { values := [10, 20, 30, 40, 50], mean := 30, thresholdBoundaries := [30],
      calculated := true } [100] hreach rfl
  exact ⟨by rw [h.1], h.2.1⟩

/-- C13 as stated fails: on the snapshot of `[30, 10, 20]`, `Values()` is `[30, 10, 20]`
before `Mean()` and `[10, 20, 30]` after it. -/
theorem Mean_reorders_values :
    (StandardResettingTimer.Snapshot { values := [30, 10, 20] }).2.Values = [30, 10, 20]
      ∧ (StandardResettingTimer.Snapshot { values := [30, 10, 20] }).2.Mean.1.Values
        = [10, 20, 30] := by
  refine ⟨rfl, ?_⟩
  unfold ResettingTimerSnapshot.Values
  rw [ResettingTimerSnapshot.Mean_values]
  decide

/-- C13, amended: the values of a snapshot are rearranged and never otherwise changed:
`Values()` after `Mean()` or `Percentiles(ps)` is a permutation of `Values()` before the
call, and it is the same sequence when the values were already in ascending order. -/
theorem Values_permuted_by_reads (t : ResettingTimerSnapshot) (ps : List ℚ) :
    (t.Percentiles ps).1.Values.Perm t.Values
      ∧ t.Mean.1.Values.Perm t.Values
      ∧ (List.Sorted (· ≤ ·) t.Values →
          (t.Percentiles ps).1.Values = t.Values ∧ t.Mean.1.Values = t.Values) := by
  unfold ResettingTimerSnapshot.Values
  rw [ResettingTimerSnapshot.Percentiles_values, ResettingTimerSnapshot.Mean_values]
  refine ⟨Int64Slice.sort_perm _, ?_, ?_⟩
  · split
    · exact List.Perm.refl _
    · exact Int64Slice.sort_perm _
  · intro hs
    rw [Int64Slice.sort_eq_self _ hs]
    simp

/-- C13 amended, at the ascending buffer `[10, 20, 30]`: `Values()` is `[10, 20, 30]`
after `Percentiles([50])` and after `Mean()`. -/
theorem Values_permuted_by_reads_witness :
    ((StandardResettingTimer.Snapshot { values := [10, 20, 30] }).2.Percentiles
        [50]).1.Values = [10, 20, 30]
      ∧ (StandardResettingTimer.Snapshot { values := [10, 20, 30] }).2.Mean.1.Values
        = [10, 20, 30] :=
  (Values_permuted_by_reads (StandardResettingTimer.Snapshot { values := [10, 20, 30] }).2
    [50]).2.2 (by decide)

/-- C14 as stated fails: for a closure that has captured the timer and records `7` into
it, `Time(f)` on the buffer `[5]` leaves `[5, 7, 1]`, which is not `[5]` followed by one
element; and when such a closure panics after recording, the buffer is left `[5, 7]`,
not `[5]`. -/
theorem Time_closure_writes_timer :
    (StandardResettingTimer.Time
        { Now := fun (w : Nat) => w, Since := fun (w : Nat) (ts : Nat) => (w : Int) - ts }
        { values := [5] } (fun t w => (t.Update 7, w + 1, none)) 0).1.values = [5, 7, 1]
      ∧ (¬ ∃ d : Int, (StandardResettingTimer.Time
        { Now := fun (w : Nat) => w, Since := fun (w : Nat) (ts : Nat) => (w : Int) - ts }
        { values := [5] } (fun t w => (t.Update 7, w + 1, none)) 0).1.values = [5] ++ [d])
      ∧ (StandardResettingTimer.Time
        { Now := fun (w : Nat) => w, Since := fun (w : Nat) (ts : Nat) => (w : Int) - ts }
        { values := [5] } (fun t w => (t.Update 7, w + 1, some (.msg "f failed"))) 0)
        = ({ values := [5, 7] }, 1, .panic (.msg "f failed")) := by
  refine ⟨rfl, ?_, rfl⟩
  rintro ⟨d, hd⟩
  have := congrArg List.length hd
  simp [StandardResettingTimer.Time, StandardResettingTimer.Update] at this

/-- C14, amended: `Time(f)` on an Active timer runs `f` once, to completion, and only
then appends one value, the time elapsed since the clock reading taken before `f`, to
the buffer as `f` left it; when `f` panics the panic propagates and nothing is appended.
For a closure that does not touch the timer the buffer `vs` therefore becomes `vs`
followed by that one value, and is left equal to `vs` when `f` panics. -/
theorem Time_runs_then_updates {W T : Type} (tp : TimePkg W T)
    (t : StandardResettingTimer) (f : TimerFunc W) (g : Func W) (w : W) :
    (∀ t1 w1, f t w = (t1, w1, none) →
        t.Time tp f w = ({ values := t1.values ++ [tp.Since w1 (tp.Now w)] }, w1, .ret ()))
      ∧ (∀ t1 w1 p, f t w = (t1, w1, some p) → t.Time tp f w = (t1, w1, .panic p))
      ∧ (∀ w1, g w = (w1, none) →
        (ResettingTimer.Standard t).Time tp g w
          = (.Standard { values := t.values ++ [tp.Since w1 (tp.Now w)] }, w1, .ret ()))
      ∧ (∀ w1 p, g w = (w1, some p) →
        (ResettingTimer.Standard t).Time tp g w = (.Standard t, w1, .panic p)) := by
  refine ⟨?_, ?_, ?_, ?_⟩
  · intro t1 w1 h
    simp [StandardResettingTimer.Time, StandardResettingTimer.Update, h]
  · intro t1 w1 p h
    simp [StandardResettingTimer.Time, h]
  · intro w1 h
    simp [ResettingTimer.Time, StandardResettingTimer.Time, StandardResettingTimer.Update,
      Func.onTimer, h]
  · intro w1 p h
    simp [ResettingTimer.Time, StandardResettingTimer.Time, Func.onTimer, h]

/-- C14 amended, in a world that counts the runs of the closure and serves as the clock:
from the buffer `[5]` and the world `0`, a closure that returns without touching the
timer leaves the buffer `[5, 1]` and the world `1`; one that panics leaves the buffer
`[5]` and the world `1`. -/
theorem Time_runs_then_updates_witness :
    (ResettingTimer.Standard { values := [5] }).Time
        { Now := fun (w : Nat) => w, Since := fun (w : Nat) (ts : Nat) => (w : Int) - ts }
        (fun w => (w + 1, none)) 0
      = (.Standard { values := [5, 1] }, 1, .ret ())
    ∧ (ResettingTimer.Standard { values := [5] }).Time
        { Now := fun (w : Nat) => w, Since := fun (w : Nat) (ts : Nat) => (w : Int) - ts }
        (fun w => (w + 1, some (.msg "f failed"))) 0
      = (.Standard { values := [5] }, 1, .panic (.msg "f failed")) :=
  ⟨(Time_runs_then_updates
      { Now := fun (w : Nat) => w, Since := fun (w : Nat) (ts : Nat) => (w : Int) - ts }
      { values := [5] } (Func.onTimer (fun w => (w + 1, none))) (fun w => (w + 1, none))
      0).2.2.1 1 rfl,
   (Time_runs_then_updates
      { Now := fun (w : Nat) => w, Since := fun (w : Nat) (ts : Nat) => (w : Int) - ts }
      { values := [5] } (Func.onTimer (fun w => (w + 1, some (.msg "f failed"))))
      (fun w => (w + 1, some (.msg "f failed"))) 0).2.2.2 1 _ rfl⟩

/-- C15: `Snapshot()` of a ResettingTimerSnapshot is that snapshot and `Snapshot()` of a
HistogramSnapshot is that snapshot, also when taken twice, and `Snapshot()` of the
NilResettingTimer and of the NilHistogram is again the Nil variant. -/
theorem Snapshot_of_frozen_is_itself {SS : Type} (s : ResettingTimerSnapshot)
    (h : HistogramSnapshot SS) (nt : NilResettingTimer) (nh : NilHistogram) :
    (ResettingTimer.Snap s).Snapshot = (.Snap s, .Snap s)
      ∧ (ResettingTimer.Snap s).Snapshot.2.Snapshot.2 = .Snap s
      ∧ h.Snapshot = h
      ∧ h.Snapshot.Snapshot = h
      ∧ (ResettingTimer.Nil nt).Snapshot = (.Nil nt, .Nil {})
      ∧ nh.Snapshot = {} :=
  ⟨rfl, rfl, rfl, rfl, rfl, rfl⟩

/-- C16: the constructors choose the variant from the flag `Enabled` alone:
`NewHistogram(s)` is the NilHistogram when it is false and an Active histogram whose
`Sample()` is `s` when it is true; `NewResettingTimer()` is the NilResettingTimer when it
is false and an Active timer whose `Values()` is empty when it is true. -/
theorem constructors_follow_Enabled {S SS : Type} (s : S) :
    (NewHistogram false s : Histogram S SS) = .Nil {}
      ∧ (∃ h : StandardHistogram S,
          (NewHistogram true s : Histogram S SS) = .Standard h ∧ h.Sample = s)
      ∧ NewResettingTimer false = .Nil {}
      ∧ (∃ t : StandardResettingTimer,
          NewResettingTimer true = .Standard t ∧ (ResettingTimer.Standard t).Values = []) :=
  ⟨rfl, ⟨_, rfl, rfl⟩, rfl, ⟨_, rfl, rfl⟩⟩

/-- C17: on the NilHistogram `Count`, `Min`, `Max` and `Sum` return `0`, `Mean`,
`StdDev`, `Variance` and `Percentile(p)` return `0.0` for every `p`, `Percentiles(ps)`
returns `len(ps)` zeros for every `ps`, and `Update(v)` and `Clear()` return without any
effect: the NilHistogram has no state, so the reads are the same for every instance,
before and after. -/
theorem NilHistogram_reads_zero (h : NilHistogram) (v : Int) (p : ℚ) (ps : List ℚ) :
    h.Count = 0 ∧ h.Min = 0 ∧ h.Max = 0 ∧ h.Sum = 0
      ∧ h.Mean = 0 ∧ h.StdDev = 0 ∧ h.Variance = 0 ∧ h.Percentile p = 0
      ∧ (h.Percentiles ps).length = ps.length ∧ (∀ x ∈ h.Percentiles ps, x = 0)
      ∧ h.Update v = () ∧ h.Clear = ()
      ∧ (∀ h1 : NilHistogram, h1 = h) := by
  refine ⟨rfl, rfl, rfl, rfl, rfl, rfl, rfl, rfl, ?_, ?_, rfl, rfl, fun _ => rfl⟩
  · simp [NilHistogram.Percentiles]
  · intro x hx
    exact List.eq_of_mem_replicate hx

/-- C19: after a `Percentiles(ps)` that returns, and after a first `Mean()`, the value
buffer of the snapshot is in ascending order and is a permutation of the buffer before
the call, of the same length. -/
theorem computing_call_sorts_buffer (t : ResettingTimerSnapshot) (ps : List ℚ) :
    ((t.Percentiles ps).2.returns = true →
        List.Sorted (· ≤ ·) (t.Percentiles ps).1.values
          ∧ (t.Percentiles ps).1.values.Perm t.values
          ∧ (t.Percentiles ps).1.values.length = t.values.length)
      ∧ (t.calculated = false →
        List.Sorted (· ≤ ·) t.Mean.1.values
          ∧ t.Mean.1.values.Perm t.values
          ∧ t.Mean.1.values.length = t.values.length) := by
  constructor
  · intro _
    rw [ResettingTimerSnapshot.Percentiles_values]
    exact ⟨Int64Slice.sort_sorted _, Int64Slice.sort_perm _, Int64Slice.sort_length _⟩
  · intro hc
    rw [ResettingTimerSnapshot.Mean_values, hc]
    exact ⟨Int64Slice.sort_sorted _, Int64Slice.sort_perm _, Int64Slice.sort_length _⟩

/-- C19, at the snapshot of `[30, 10, 20]`: `Percentiles([])` returns and the first
`Mean()` computes, and both leave the buffer `[10, 20, 30]`. -/
theorem computing_call_sorts_buffer_witness :
    ((StandardResettingTimer.Snapshot { values := [30, 10, 20] }).2.Percentiles []).1.values
        = [10, 20, 30]
      ∧ (StandardResettingTimer.Snapshot { values := [30, 10, 20] }).2.Mean.1.values
        = [10, 20, 30] := by
  have h := computing_call_sorts_buffer
    (StandardResettingTimer.Snapshot { values := [30, 10, 20] }).2 []
  have hret : ((StandardResettingTimer.Snapshot
      { values := [30, 10, 20] }).2.Percentiles []).2.returns = true := by
    unfold ResettingTimerSnapshot.Percentiles
    rcases hcalc : ResettingTimerSnapshot.calc
      (StandardResettingTimer.Snapshot { values := [30, 10, 20] }).2 [] with ⟨t1, o⟩
    have := ResettingTimerSnapshot.calc_nil_returns
      (StandardResettingTimer.Snapshot { values := [30, 10, 20] }).2
    rw [hcalc] at this
    simp only at this
    subst this
    rfl
  have h1 := h.1 hret
  have h2 := h.2 rfl
  have hsorted : List.Sorted (· ≤ ·) ([10, 20, 30] : List Int) := by decide
  exact ⟨List.eq_of_perm_of_sorted
      (h1.2.1.trans (by decide : List.Perm ([30, 10, 20] : List Int) [10, 20, 30]))
      h1.1 hsorted,
    List.eq_of_perm_of_sorted
      (h2.2.1.trans (by decide : List.Perm ([30, 10, 20] : List Int) [10, 20, 30]))
      h2.1 hsorted⟩

/-- C21: `Time(f)` on the NilResettingTimer does not call `f`: the world that `f` would
change is left as it was, and the call returns; `Time(f)` on an Active timer leaves the
world that one run of `f` leaves. So the same call site, on the timer that
`NewResettingTimer()` returned, runs `f` once when `Enabled` is true and not at all when
it is false. -/
theorem Time_skips_closure_when_disabled {W T : Type} (tp : TimePkg W T)
    (nt : NilResettingTimer) (t : StandardResettingTimer) (f : Func W) (w : W) :
    (ResettingTimer.Nil nt).Time tp f w = (.Nil nt, w, .ret ())
      ∧ ((ResettingTimer.Standard t).Time tp f w).2.1 = (f w).1
      ∧ ((NewResettingTimer false).Time tp f w).2.1 = w
      ∧ ((NewResettingTimer true).Time tp f w).2.1 = (f w).1 := by
  have hstd : ∀ s : StandardResettingTimer,
      ((ResettingTimer.Standard s).Time tp f w).2.1 = (f w).1 := by
    intro s
    simp only [ResettingTimer.Time, StandardResettingTimer.Time, Func.onTimer]
    rcases hf : f w with ⟨w1, o⟩
    cases o <;> rfl
  exact ⟨rfl, hstd t, rfl, hstd _⟩

/-- The outcome of `Percentiles` is decided by the sorted buffer and the percentiles. -/
theorem ResettingTimerSnapshot.Percentiles_outcome_congr (t s : ResettingTimerSnapshot)
    (ps : List ℚ) (h : Int64Slice.sort t.values = Int64Slice.sort s.values) :
    (t.Percentiles ps).2 = (s.Percentiles ps).2 := by
  unfold ResettingTimerSnapshot.Percentiles ResettingTimerSnapshot.calc
  simp only [h]
  by_cases hc : (Int64Slice.sort s.values).length > 0
  · simp only [hc, if_true]
    generalize calcLoop (Int64Slice.sort s.values) (Int64Slice.sort s.values).length ps 0
      (List.replicate ps.length 0)
      ((Int64Slice.sort s.values).getD ((Int64Slice.sort s.values).length - 1) 0) = r
    rcases r with ⟨tb, o⟩
    cases o <;> rfl
  · simp only [hc, if_false]

theorem Int64Slice.sort_sort (l : List Int) :
    Int64Slice.sort (Int64Slice.sort l) = Int64Slice.sort l :=
  Int64Slice.sort_eq_self _ (Int64Slice.sort_sorted l)

/-- C22: when `Percentiles(ps)` returns on a snapshot, a second `Percentiles(ps)` returns
the same list, and `Mean()` returns one and the same number on the snapshot as it was,
after `Percentiles(ps)`, and when read again after either. -/
theorem repeated_reads_agree (t : ResettingTimerSnapshot) (ps : List ℚ)
    (hr : t.Reachable) (hret : (t.Percentiles ps).2.returns = true) :
    (∃ r : List Int, (t.Percentiles ps).2 = .ret r
        ∧ ((t.Percentiles ps).1.Percentiles ps).2 = .ret r)
      ∧ ∃ m : ℚ, t.Mean.2 = .ret m
          ∧ (t.Percentiles ps).1.Mean.2 = .ret m
          ∧ t.Mean.1.Mean.2 = .ret m
          ∧ (t.Percentiles ps).1.Mean.1.Mean.2 = .ret m := by
  constructor
  · have hsame : ((t.Percentiles ps).1.Percentiles ps).2 = (t.Percentiles ps).2 := by
      apply ResettingTimerSnapshot.Percentiles_outcome_congr
      rw [ResettingTimerSnapshot.Percentiles_values, Int64Slice.sort_sort]
    cases hout : (t.Percentiles ps).2 with
    | ret r => exact ⟨r, rfl, by rw [hsame, hout]⟩
    | panic p => rw [hout] at hret; simp [Outcome.returns] at hret
  · have hp : (t.Percentiles ps).1.Reachable := .percentiles ps hr
    have hm : t.Mean.1.Reachable := .mean hr
    have hpm : (t.Percentiles ps).1.Mean.1.Reachable := .mean hp
    have hsame : ∀ s : ResettingTimerSnapshot, s.values.Perm t.values →
        mean64 s.values = mean64 t.values := fun s hs => mean64_perm hs
    have hpv : (t.Percentiles ps).1.values.Perm t.values := by
      rw [ResettingTimerSnapshot.Percentiles_values]; exact Int64Slice.sort_perm _
    have hmv : t.Mean.1.values.Perm t.values := by
      rw [ResettingTimerSnapshot.Mean_values]
      split
      · exact List.Perm.refl _
      · exact Int64Slice.sort_perm _
    have hpmv : (t.Percentiles ps).1.Mean.1.values.Perm t.values := by
      rw [ResettingTimerSnapshot.Mean_values]
      split
      · exact hpv
      · exact (Int64Slice.sort_perm _).trans hpv
    refine ⟨mean64 t.values,
      ResettingTimerSnapshot.Mean_result t hr.inv, ?_, ?_, ?_⟩
    · rw [ResettingTimerSnapshot.Mean_result _ hp.inv, hsame _ hpv]
    · rw [ResettingTimerSnapshot.Mean_result _ hm.inv, hsame _ hmv]
    · rw [ResettingTimerSnapshot.Mean_result _ hpm.inv, hsame _ hpmv]

/-- C22, at the snapshot of `[10, 20, 30, 40, 50]` and the percentile `50`: the second
`Percentiles([50])` returns what the first returned, and `Mean()` after it agrees with
`Mean()` on the snapshot as it was. -/
theorem repeated_reads_agree_witness :
    (∃ r : List Int,
        ((StandardResettingTimer.Snapshot { values := [10, 20, 30, 40, 50] }).2.Percentiles
          [50]).2 = .ret r
        ∧ (((StandardResettingTimer.Snapshot
          { values := [10, 20, 30, 40, 50] }).2.Percentiles [50]).1.Percentiles [50]).2
            = .ret r)
    ∧ ∃ m : ℚ, (StandardResettingTimer.Snapshot
          { values := [10, 20, 30, 40, 50] }).2.Mean.2 = .ret m
        ∧ ((StandardResettingTimer.Snapshot
          { values := [10, 20, 30, 40, 50] }).2.Percentiles [50]).1.Mean.2 = .ret m := by
  have hret : ((StandardResettingTimer.Snapshot
      { values := [10, 20, 30, 40, 50] }).2.Percentiles [50]).2.returns = true := by
    decide!
  have h := repeated_reads_agree
    (StandardResettingTimer.Snapshot { values := [10, 20, 30, 40, 50] }).2 [50]
    (.snapshot _) hret
  obtain ⟨h1, m, hm1, hm2, _, _⟩ := h
  exact ⟨h1, m, hm1, hm2⟩

end metrics
